import Mathlib

set_option maxHeartbeats 1000000

/-!
Verification of the NOMAD mainfile-matching and parser-resolution engine,
the plugin entry-point models (`nomad/config/models/plugins.py`) and the
package-cleanup script (`scripts/cleanup_packages.py`).

The pydantic entry-point models, the registry mutation functions
(`add_plugin`, `remove_plugin`), `dict_safe`, the `ExampleUploadEntryPoint`
validator and `find_packages_to_delete` are embedded from the source.
The matcher and resolution engine themselves are not part of the source
excerpt; those definitions are modelled from the specification and are
marked `Modelled from the spec:` in their doc comments.

Regular expressions are modelled by a small regex calculus with Brzozowski
derivative matching, covering the subset of Python `re` syntax used by the
parser defaults (`.*`, `text/.*`): literal characters, `.` (any character
except newline) and postfix `*`.  Python `re.search` (unanchored partial
match, the semantics required by the spec for name/mime/content clauses)
is modelled by `reSearch`.
-/

namespace NomadSpec

/-- Regular expressions over an arbitrary alphabet.  `anyExcept ex` matches
any single symbol not in `ex` (with `ex = []` this is "any symbol", and for
`Char` with `ex = ['\n']` it is Python's `.`). -/
inductive Regex (α : Type) where
  | emp : Regex α
  | eps : Regex α
  | lit : α → Regex α
  | anyExcept : List α → Regex α
  | alt : Regex α → Regex α → Regex α
  | cat : Regex α → Regex α → Regex α
  | star : Regex α → Regex α
deriving DecidableEq

/-- The matching relation of the regex calculus (full match of a word). -/
inductive RMatches {α : Type} : Regex α → List α → Prop where
  | meps : RMatches .eps []
  | mlit (a : α) : RMatches (.lit a) [a]
  | many (a : α) (ex : List α) : a ∉ ex → RMatches (.anyExcept ex) [a]
  | maltL {r s : Regex α} {l : List α} : RMatches r l → RMatches (.alt r s) l
  | maltR {r s : Regex α} {l : List α} : RMatches s l → RMatches (.alt r s) l
  | mcat {r s : Regex α} {l1 l2 : List α} : RMatches r l1 → RMatches s l2 →
      RMatches (.cat r s) (l1 ++ l2)
  | mstarNil {r : Regex α} : RMatches (.star r) []
  | mstarCat {r : Regex α} {l1 l2 : List α} : RMatches r l1 → RMatches (.star r) l2 →
      RMatches (.star r) (l1 ++ l2)

/-- Nullability: does the regex match the empty word. -/
def matchEpsilon {α : Type} : Regex α → Bool
  | .emp => false
  | .eps => true
  | .lit _ => false
  | .anyExcept _ => false
  | .alt r s => matchEpsilon r || matchEpsilon s
  | .cat r s => matchEpsilon r && matchEpsilon s
  | .star _ => true

/-- Smart alternation constructor that prunes the empty regex, keeping
derivatives small. -/
def rAlt {α : Type} (r s : Regex α) : Regex α :=
  match r, s with
  | .emp, s => s
  | r, .emp => r
  | r, s => .alt r s

/-- Smart concatenation constructor that prunes `emp` and `eps`, keeping
derivatives small. -/
def rCat {α : Type} (r s : Regex α) : Regex α :=
  match r, s with
  | .emp, _ => .emp
  | _, .emp => .emp
  | .eps, s => s
  | r, .eps => r
  | r, s => .cat r s

/-- Brzozowski derivative of a regex with respect to one symbol. -/
def deriv {α : Type} [DecidableEq α] : Regex α → α → Regex α
  | .emp, _ => .emp
  | .eps, _ => .emp
  | .lit a, c => if a = c then .eps else .emp
  | .anyExcept ex, c => if c ∈ ex then .emp else .eps
  | .alt r s, c => rAlt (deriv r c) (deriv s c)
  | .cat r s, c =>
    if matchEpsilon r then rAlt (rCat (deriv r c) s) (deriv s c)
    else rCat (deriv r c) s
  | .star r, c => rCat (deriv r c) (.star r)

/-- Executable full-match test by iterated derivatives. -/
def rmatch {α : Type} [DecidableEq α] : Regex α → List α → Bool
  | r, [] => matchEpsilon r
  | r, c :: l => rmatch (deriv r c) l

/-- The regex matching an arbitrary word over `α`. -/
def anyStar (α : Type) : Regex α := Regex.star (Regex.anyExcept [])

/-- Modelled from the spec: Python `re.search` semantics — an unanchored
partial match ("search, not fullmatch") used for the name, mime, content and
binary-pattern clauses.  A search succeeds iff some contiguous segment of
the input matches the regex. -/
def reSearch {α : Type} [DecidableEq α] (r : Regex α) (l : List α) : Bool :=
  rmatch (Regex.cat (anyStar α) (Regex.cat r (anyStar α))) l

/-- The regex matching exactly one given word (a sequence of literals). -/
def litSeqRe {α : Type} : List α → Regex α
  | [] => Regex.eps
  | c :: cs => Regex.cat (Regex.lit c) (litSeqRe cs)

/-- Python `.`: any character except a newline. -/
def reDot : Regex Char := Regex.anyExcept ['\n']

/-- Metacharacters of Python `re` that the modelled subset does not support;
a pattern using one of them (outside the supported `.` and `*`) does not
compile. -/
def charMetas : List Char :=
  ['(', ')', '[', ']', '\x7b', '\x7d', '?', '+', '|', '^', '$', '\\']

/-- Modelled from the spec: compilation of a configured regex string into
the regex calculus ("compiled once at rule-set registration time").  The
supported subset is literal characters, `.` and postfix `*`; `none` means
the pattern is invalid/unsupported (e.g. the unbalanced `"("`, which Python
`re.compile` also rejects). -/
def compileAuxChar : List Char → List (Regex Char) → Option (List (Regex Char))
  | [], acc => some acc
  | c :: rest, acc =>
    if c = '*' then
      match acc with
      | [] => none
      | r :: acc' => compileAuxChar rest (Regex.star r :: acc')
    else if c = '.' then compileAuxChar rest (reDot :: acc)
    else if c ∈ charMetas then none
    else compileAuxChar rest (Regex.lit c :: acc)

/-- Compile a regex string (see `compileAuxChar`). -/
def compileRe (s : String) : Option (Regex Char) :=
  (compileAuxChar s.data []).map fun acc => acc.reverse.foldr Regex.cat Regex.eps

/-- Python bytes-`.`: any byte except the newline byte 10. -/
def byteDot : Regex Nat := Regex.anyExcept [10]

/-- Byte codes of the unsupported metacharacters (see `charMetas`). -/
def byteMetas : List Nat := [40, 41, 91, 93, 123, 125, 63, 43, 124, 94, 36, 92]

/-- Compilation of a binary regex (over bytes); 42 is `*`, 46 is `.`. -/
def compileAuxBytes : List Nat → List (Regex Nat) → Option (List (Regex Nat))
  | [], acc => some acc
  | c :: rest, acc =>
    if c = 42 then
      match acc with
      | [] => none
      | r :: acc' => compileAuxBytes rest (Regex.star r :: acc')
    else if c = 46 then compileAuxBytes rest (byteDot :: acc)
    else if c ∈ byteMetas then none
    else compileAuxBytes rest (Regex.lit c :: acc)

/-- Compile a bytes regex (see `compileAuxBytes`). -/
def compileReBytes (bs : List Nat) : Option (Regex Nat) :=
  (compileAuxBytes bs []).map fun acc => acc.reverse.foldr Regex.cat Regex.eps

/-- The compiled form of the pattern `.*`, the `ParserEntryPoint` default for
`mainfile_name_re` and `mainfile_mime_re` and the `Parser` default for
`mainfile_name_re`. -/
def dotStarRe : Regex Char := Regex.cat (Regex.star reDot) Regex.eps

/-- The compiled form of the pattern `text/.*`, the `Parser` default for
`mainfile_mime_re`. -/
def textSlashRe : Regex Char :=
  Regex.cat (Regex.lit 't') (Regex.cat (Regex.lit 'e') (Regex.cat (Regex.lit 'x')
    (Regex.cat (Regex.lit 't') (Regex.cat (Regex.lit '/')
      (Regex.cat (Regex.star reDot) Regex.eps)))))

/-- One entry of `mainfile_contents_dict`: the named sheet/section must exist
and contain all of the required keys (spec: structured-content predicate,
`'sheet': set of required column names'`; the comment-marker convention only
affects how the sheet's keys are extracted and is abstracted into the
extracted key lists of `RawFile.sheets`). -/
structure DictRule where
  sheet : String
  requiredKeys : List String
deriving DecidableEq

/-- Modelled from the spec: the per-file view the matcher consumes — base
name, detected MIME type, the bounded decoded text window, the bounded raw
byte window, and the extracted structured content (sheet name to keys
present).  Decompression (spec 4.2) is applied before this view is built,
so matching operates on the post-adapter content. -/
structure RawFile where
  name : String
  mime : String
  content : String
  fileBytes : List Nat
  sheets : List (String × List String)
deriving DecidableEq

/-- Modelled from the spec: an immutable parser rule-set as consumed by the
resolution engine — the compiled matching clauses plus priority metadata
(spec section 3).  Field values originate in a `ParserEntryPoint` or
`Parser` model via `compileParserEntryPoint` / `compileParserPlugin`. -/
structure ParserRuleSet where
  id : String
  level : Int
  aliases : List String
  name_re : Regex Char
  mime_re : Regex Char
  contents_re : Option (Regex Char)
  binary_header : Option (List Nat)
  binary_header_re : Option (Regex Nat)
  alternative : Bool
  contents_dict : Option DictRule
  compressions : List String
deriving DecidableEq

/-- Does the word start with the given sequence. -/
def startsWithSeq {α : Type} [DecidableEq α] : List α → List α → Bool
  | [], _ => true
  | _ :: _, [] => false
  | a :: p, b :: l => if a = b then startsWithSeq p l else false

/-- Does the given sequence occur contiguously anywhere in the word
(used for the exact binary-header clause: "bytes are included in the
file", a search, not a prefix check). -/
def containsSeqB {α : Type} [DecidableEq α] (p : List α) : List α → Bool
  | [] => startsWithSeq p []
  | b :: l => startsWithSeq p (b :: l) || containsSeqB p l

/-- Modelled from the spec: the structured-content clause — the named sheet
must exist and contain all required keys; failure to find the sheet is a
no-match, not an error. -/
def evalDictRule (d : DictRule) (f : RawFile) : Bool :=
  match f.sheets.lookup d.sheet with
  | some ks => d.requiredKeys.all fun k => ks.contains k
  | none => false

/-- Modelled from the spec: the Matcher (spec 4.3/4.1) — a rule-set matches
a file iff all of its present clauses evaluate to true; absent optional
clauses are treated as always true; name/mime/content clauses use regex
search semantics. -/
def ruleMatches (r : ParserRuleSet) (f : RawFile) : Bool :=
  reSearch r.name_re f.name.data &&
  reSearch r.mime_re f.mime.data &&
  (match r.contents_re with
   | none => true
   | some re => reSearch re f.content.data) &&
  (match r.binary_header with
   | none => true
   | some bs => containsSeqB bs f.fileBytes) &&
  (match r.binary_header_re with
   | none => true
   | some re => reSearch re f.fileBytes) &&
  (match r.contents_dict with
   | none => true
   | some d => evalDictRule d f)

/-- The `ParserEntryPoint` pydantic model (src `plugins.py`): inherited
`EntryPoint` fields followed by the parser matching fields, with the
source's defaults (`mainfile_name_re = '.*'`, `mainfile_mime_re = '.*'`,
optional fields absent).  `entry_point_type` is the literal `"parser"` and
is not a free field.  `mainfile_contents_dict` is modelled by the
structured rule it denotes. -/
structure ParserEntryPointModel where
  id : Option String := none
  name : Option String := none
  description : Option String := none
  plugin_package : Option String := none
  level : Int := 0
  aliases : List String := []
  mainfile_contents_re : Option String := none
  mainfile_name_re : String := ".*"
  mainfile_mime_re : String := ".*"
  mainfile_binary_header : Option (List Nat) := none
  mainfile_binary_header_re : Option (List Nat) := none
  mainfile_alternative : Bool := false
  mainfile_contents_dict : Option DictRule := none
  supported_compressions : List String := []
deriving DecidableEq

/-- The `Parser` plugin pydantic model (src `plugins.py`): the matching
fields with the source's defaults — note `mainfile_mime_re = 'text/.*'`,
unlike `ParserEntryPoint`.  Fields without a source default (`name`,
`python_package`, `parser_class_name`) are required. -/
structure ParserPluginModel where
  id : Option String := none
  name : String
  description : Option String := none
  python_package : String
  parser_class_name : String
  parser_as_interface : Bool := false
  mainfile_contents_re : Option String := none
  mainfile_name_re : String := ".*"
  mainfile_mime_re : String := "text/.*"
  mainfile_binary_header : Option (List Nat) := none
  mainfile_binary_header_re : Option (List Nat) := none
  mainfile_alternative : Bool := false
  mainfile_contents_dict : Option DictRule := none
  supported_compressions : List String := []
  domain : String := "dft"
  level : Int := 0
  code_name : Option String := none
deriving DecidableEq

/-- Compile an optional regex string; absence compiles to an absent clause. -/
def compileOptRe : Option String → Option (Option (Regex Char))
  | none => some none
  | some s => (compileRe s).map some

/-- Compile an optional bytes regex; absence compiles to an absent clause. -/
def compileOptReBytes : Option (List Nat) → Option (Option (Regex Nat))
  | none => some none
  | some bs => (compileReBytes bs).map some

/-- Modelled from the spec: registration-time compilation of a
`ParserEntryPoint` into a rule-set; `none` when one of its regexes is
invalid (a malformed rule-set). -/
def compileParserEntryPoint (m : ParserEntryPointModel) : Option ParserRuleSet := do
  let nre ← compileRe m.mainfile_name_re
  let mre ← compileRe m.mainfile_mime_re
  let cre ← compileOptRe m.mainfile_contents_re
  let bre ← compileOptReBytes m.mainfile_binary_header_re
  some { id := m.id.getD "", level := m.level, aliases := m.aliases,
         name_re := nre, mime_re := mre, contents_re := cre,
         binary_header := m.mainfile_binary_header, binary_header_re := bre,
         alternative := m.mainfile_alternative,
         contents_dict := m.mainfile_contents_dict,
         compressions := m.supported_compressions }

/-- Modelled from the spec: registration-time compilation of a `Parser`
plugin model into a rule-set (same clauses, `Parser` defaults). -/
def compileParserPlugin (m : ParserPluginModel) : Option ParserRuleSet := do
  let nre ← compileRe m.mainfile_name_re
  let mre ← compileRe m.mainfile_mime_re
  let cre ← compileOptRe m.mainfile_contents_re
  let bre ← compileOptReBytes m.mainfile_binary_header_re
  some { id := m.name, level := m.level, aliases := [],
         name_re := nre, mime_re := mre, contents_re := cre,
         binary_header := m.mainfile_binary_header, binary_header_re := bre,
         alternative := m.mainfile_alternative,
         contents_dict := m.mainfile_contents_dict,
         compressions := m.supported_compressions }

/-- A `ParserEntryPoint` constructed with no explicit clauses: every field
at its source default. -/
def pepDefault : ParserEntryPointModel := {}

/-- The compiled rule-set of `pepDefault` (name and mime pattern `.*`). -/
def pepDefaultRS : ParserRuleSet :=
  { id := "", level := 0, aliases := [], name_re := dotStarRe,
    mime_re := dotStarRe, contents_re := none, binary_header := none,
    binary_header_re := none, alternative := false, contents_dict := none,
    compressions := [] }

/-- A `Parser` plugin model constructed with no explicit clauses: every
matching field at its source default. -/
def parserPluginDefault : ParserPluginModel :=
  { name := "parser", python_package := "nomad_parser",
    parser_class_name := "MainParser" }

/-- The compiled rule-set of `parserPluginDefault` (name pattern `.*`,
mime pattern `text/.*`). -/
def parserDefaultRS : ParserRuleSet :=
  { id := "parser", level := 0, aliases := [], name_re := dotStarRe,
    mime_re := textSlashRe, contents_re := none, binary_header := none,
    binary_header_re := none, alternative := false, contents_dict := none,
    compressions := [] }

/-- A value of one pydantic field, as appearing in a serialized dict;
`vnone` is the Python `None`, which `exclude_none` drops. -/
inductive FieldValue where
  | vnone : FieldValue
  | vstr : String → FieldValue
  | vint : Int → FieldValue
  | vbool : Bool → FieldValue
  | vlist : List String → FieldValue
  | vbytes : List Nat → FieldValue
  | vdict : DictRule → FieldValue
deriving DecidableEq

/-- Lift an optional string into a field value. -/
def optStr : Option String → FieldValue
  | none => FieldValue.vnone
  | some s => FieldValue.vstr s

/-- Lift optional bytes into a field value. -/
def optBytes : Option (List Nat) → FieldValue
  | none => FieldValue.vnone
  | some b => FieldValue.vbytes b

/-- The fields of `ParserEntryPoint` in pydantic declaration order:
the inherited `EntryPoint` fields, then the parser fields. -/
def parserEntryPointFields : List String :=
  ["id", "entry_point_type", "name", "description", "plugin_package",
   "level", "aliases", "mainfile_contents_re", "mainfile_name_re",
   "mainfile_mime_re", "mainfile_binary_header", "mainfile_binary_header_re",
   "mainfile_alternative", "mainfile_contents_dict", "supported_compressions"]

/-- Field access by name on a `ParserEntryPoint` model. -/
def getField (m : ParserEntryPointModel) : String → FieldValue
  | "id" => optStr m.id
  | "entry_point_type" => FieldValue.vstr "parser"
  | "name" => optStr m.name
  | "description" => optStr m.description
  | "plugin_package" => optStr m.plugin_package
  | "level" => FieldValue.vint m.level
  | "aliases" => FieldValue.vlist m.aliases
  | "mainfile_contents_re" => optStr m.mainfile_contents_re
  | "mainfile_name_re" => FieldValue.vstr m.mainfile_name_re
  | "mainfile_mime_re" => FieldValue.vstr m.mainfile_mime_re
  | "mainfile_binary_header" => optBytes m.mainfile_binary_header
  | "mainfile_binary_header_re" => optBytes m.mainfile_binary_header_re
  | "mainfile_alternative" => FieldValue.vbool m.mainfile_alternative
  | "mainfile_contents_dict" =>
    match m.mainfile_contents_dict with
    | none => FieldValue.vnone
    | some d => FieldValue.vdict d
  | "supported_compressions" => FieldValue.vlist m.supported_compressions
  | _ => FieldValue.vnone

/-- Pydantic `self.dict(include=keys, exclude_none=True)`: the included
fields in declaration order, with `None`-valued fields dropped. -/
def pydanticDict (m : ParserEntryPointModel) (keys : List String) :
    List (String × FieldValue) :=
  keys.filterMap fun k =>
    match getField m k with
    | FieldValue.vnone => none
    | v => some (k, v)

/-- `ParserEntryPoint.dict_safe` (src `plugins.py`): all fields except the
two binary ones (`keys.remove(...)` on the field-name set), serialized with
`exclude_none`. -/
def dict_safe (m : ParserEntryPointModel) : List (String × FieldValue) :=
  pydanticDict m (parserEntryPointFields.filter fun k =>
    !(k == "mainfile_binary_header_re" || k == "mainfile_binary_header"))

/-- The raw values `ExampleUploadEntryPoint._validate` receives
(`values.get('path')` etc.). -/
structure ExampleUploadValues where
  path : Option String := none
  url : Option String := none
  local_path : Option String := none
deriving DecidableEq

/-- Python truthiness of an optional string: `None` and the empty string
are falsy. -/
def truthy : Option String → Bool
  | none => false
  | some s => !s.isEmpty

/-- `ExampleUploadEntryPoint._validate` (src `plugins.py`): raises
`ValueError` when both `path` and `url` are given, or when none of `path`,
`url` and `local_path` is given; otherwise returns the values unchanged. -/
def exampleUploadValidate (v : ExampleUploadValues) :
    Except String ExampleUploadValues :=
  if truthy v.path && truthy v.url then
    Except.error "Provide only path or url, not both."
  else if !truthy v.path && !truthy v.url && !truthy v.local_path then
    Except.error "Provide one of path, url or local_path."
  else Except.ok v

/-- The plugin entry-point registry
(`config.plugins.entry_points.options`): a string-keyed mapping. -/
abbrev PluginRegistry := List (String × ParserEntryPointModel)

/-- Dictionary lookup on the registry. -/
def regLookup : PluginRegistry → String → Option ParserEntryPointModel
  | [], _ => none
  | (k', v) :: t, k => if k = k' then some v else regLookup t k

/-- Dictionary assignment `options[key] = plugin`: replaces an existing
binding, otherwise appends. -/
def regInsert : PluginRegistry → String → ParserEntryPointModel → PluginRegistry
  | [], k, v => [(k, v)]
  | (k', v') :: t, k, v =>
    if k = k' then (k, v) :: t else (k', v') :: regInsert t k v

/-- Dictionary deletion `del options[key]` for a present key. -/
def regErase : PluginRegistry → String → PluginRegistry
  | [], _ => []
  | (k', v') :: t, k => if k = k' then t else (k', v') :: regErase t k

/-- `add_plugin` (src `plugins.py`): the registry mutation is
`config.plugins.entry_points.options[plugin.key] = plugin`.  No validation
of the plugin's contents is performed.  The `sys.path` insertion, the
module import and the Elasticsearch reload in the source are process-level
side effects outside the registry model. -/
def add_plugin (reg : PluginRegistry) (key : String)
    (plugin : ParserEntryPointModel) : PluginRegistry :=
  regInsert reg key plugin

/-- `remove_plugin` (src `plugins.py`): the registry mutation is the
unguarded `del config.plugins.entry_points.options[plugin.key]`, which in
Python raises `KeyError` when the key is absent.  The result is the new
registry contents paired with the uncaught exception, if any (the
`sys.path` removal is wrapped in try/except in the source and the later
package-registry bookkeeping happens only when no exception was raised). -/
def remove_plugin (reg : PluginRegistry) (key : String) :
    PluginRegistry × Option String :=
  match regLookup reg key with
  | some _ => (regErase reg key, none)
  | none => (reg, some "KeyError")

/-- A plugin whose content regex is the pattern `"("` — invalid under
Python `re.compile` (missing closing parenthesis) and not compilable in the
modelled subset either. -/
def badPlugin : ParserEntryPointModel := { mainfile_contents_re := some "(" }

/-- Ordered insertion with respect to a boolean relation: the new element
goes in front of the first element `b` with `le a b`. -/
def ordInsertBy {α : Type} (le : α → α → Bool) (a : α) : List α → List α
  | [] => [a]
  | b :: l => if le a b then a :: b :: l else b :: ordInsertBy le a l

/-- Insertion sort by a boolean relation.  With a reflexive total preorder
it is a stable sort: of two equivalent elements the one earlier in the
input stays first. -/
def sortByRel {α : Type} (le : α → α → Bool) : List α → List α
  | [] => []
  | a :: l => ordInsertBy le a (sortByRel le l)

/-- Priority comparison of rule-sets: ascending `level`. -/
def levelLe (r s : ParserRuleSet) : Bool := decide (r.level ≤ s.level)

/-- Modelled from the spec: resolution step 2 (spec 4.4) — evaluate the
non-alternative rule-sets in ascending level order (stable in registry
insertion order) and return the first match. -/
def resolveFile (rules : List ParserRuleSet) (f : RawFile) :
    Option ParserRuleSet :=
  (sortByRel levelLe (rules.filter fun r => !r.alternative)).find? fun r =>
    ruleMatches r f

/-- Modelled from the spec: the alternative-rule-set pass — same ordering,
restricted to alternative rule-sets. -/
def resolveAlternative (rules : List ParserRuleSet) (f : RawFile) :
    Option ParserRuleSet :=
  (sortByRel levelLe (rules.filter fun r => r.alternative)).find? fun r =>
    ruleMatches r f

/-- Did any file of the directory receive a non-alternative match. -/
def someNonAltMatch (rules : List ParserRuleSet) (files : List RawFile) :
    Bool :=
  files.any fun g => (resolveFile rules g).isSome

/-- Modelled from the spec: resolution of one file within its directory
(spec 4.4): the first matching non-alternative rule-set wins; otherwise
alternative rule-sets are considered, but all their matches are discarded
when any file of the directory received a non-alternative match. -/
def assignFile (rules : List ParserRuleSet) (files : List RawFile)
    (f : RawFile) : Option String :=
  match resolveFile rules f with
  | some r => some r.id
  | none =>
    if someNonAltMatch rules files then none
    else (resolveAlternative rules f).map fun r => r.id

/-- Modelled from the spec: one resolution pass over a directory, emitting
the file-to-parser mapping. -/
def resolveDirectory (rules : List ParserRuleSet) (files : List RawFile) :
    List (RawFile × Option String) :=
  files.map fun f => (f, assignFile rules files f)

/-- One row of the package table of `cleanup_packages.py`: the package name
and its already-parsed version.  Versions are modelled as an arbitrary
linearly ordered type with a prerelease predicate (the parsing itself is
done by the external `packaging.version` library). -/
structure Package (V : Type) where
  name : String
  version : V
deriving DecidableEq

/-- `sort_values(by='parsed_version', ascending=False)`. -/
def sortDescBy {V : Type} [LinearOrder V] (l : List (Package V)) :
    List (Package V) :=
  sortByRel (fun p q => decide (q.version ≤ p.version)) l

/-- The second-latest non-prerelease package of a group
(`latest_non_dev.iloc[1]`). -/
def secondLatestNonPre {V : Type} [LinearOrder V] (isPre : V → Bool)
    (group : List (Package V)) : Option (Package V) :=
  ((sortDescBy group).filter fun q => !isPre q.version)[1]?

/-- The per-group body of `find_packages_to_delete`: sort by version
descending, find the non-prerelease versions, skip the group when it has
fewer than two of them, and otherwise delete the prerelease versions
strictly older than the second-latest non-prerelease version. -/
def deleteGroup {V : Type} [LinearOrder V] (isPre : V → Bool)
    (group : List (Package V)) : List (Package V) :=
  if ((sortDescBy group).filter fun q => !isPre q.version).length < 2 then []
  else
    match ((sortDescBy group).filter fun q => !isPre q.version)[1]? with
    | none => []
    | some second =>
      (sortDescBy group).filter fun q =>
        decide (q.version < second.version) && isPre q.version

/-- `find_packages_to_delete` (src `cleanup_packages.py`): group the table
by package name and collect each group's deletions (see `deleteGroup`). -/
def find_packages_to_delete {V : Type} [LinearOrder V] (isPre : V → Bool)
    (packages : List (Package V)) : List (Package V) :=
  ((packages.map fun p => p.name).dedup).flatMap fun n =>
    deleteGroup isPre (packages.filter fun q => q.name == n)

/-- Prerelease predicate used by the concrete cleanup examples: odd numbers
stand for prerelease versions. -/
def oddPre (n : Nat) : Bool := n % 2 == 1

/-- A concrete one-name package table: releases 6 and 4, prereleases 3
and 1. -/
def samplePackages : List (Package Nat) :=
  [{ name := "a", version := 6 }, { name := "a", version := 4 },
   { name := "a", version := 3 }, { name := "a", version := 1 }]

/-- Concrete directory and registry used to witness and refute the
directory-level claims: a text output file and a JSON data file. -/
def fileCalc : RawFile :=
  { name := "calc.out", mime := "text/plain", content := "", fileBytes := [],
    sheets := [] }

/-- A JSON file; its MIME type does not contain `text/`. -/
def fileJson : RawFile :=
  { name := "data.json", mime := "application/json", content := "",
    fileBytes := [], sheets := [] }

/-- A second data file for the two-alternative-rule-sets scenario. -/
def fileProto : RawFile :=
  { name := "run.proto", mime := "application/octet-stream", content := "",
    fileBytes := [], sheets := [] }

/-- A non-alternative rule-set matching files whose name contains `calc`. -/
def rsCalc : ParserRuleSet :=
  { id := "calcParser", level := 1, aliases := [],
    name_re := litSeqRe ('c' :: 'a' :: 'l' :: 'c' :: []),
    mime_re := anyStar Char, contents_re := none, binary_header := none,
    binary_header_re := none, alternative := false, contents_dict := none,
    compressions := [] }

/-- An alternative rule-set matching files whose name contains `json`. -/
def rsAltJson : ParserRuleSet :=
  { id := "jsonAlt", level := 2, aliases := [],
    name_re := litSeqRe ('j' :: 's' :: 'o' :: 'n' :: []),
    mime_re := anyStar Char, contents_re := none, binary_header := none,
    binary_header_re := none, alternative := true, contents_dict := none,
    compressions := [] }

/-- An alternative rule-set matching files whose name contains `proto`. -/
def rsAltProto : ParserRuleSet :=
  { id := "protoAlt", level := 3, aliases := [],
    name_re := litSeqRe ('p' :: 'r' :: 'o' :: 't' :: 'o' :: []),
    mime_re := anyStar Char, contents_re := none, binary_header := none,
    binary_header_re := none, alternative := true, contents_dict := none,
    compressions := [] }

/-- A catch-all non-alternative rule-set at level 0. -/
def rsLevel0 : ParserRuleSet :=
  { id := "lvl0", level := 0, aliases := [], name_re := anyStar Char,
    mime_re := anyStar Char, contents_re := none, binary_header := none,
    binary_header_re := none, alternative := false, contents_dict := none,
    compressions := [] }

/-- A catch-all non-alternative rule-set at level 5. -/
def rsLevel5 : ParserRuleSet :=
  { id := "lvl5", level := 5, aliases := [], name_re := anyStar Char,
    mime_re := anyStar Char, contents_re := none, binary_header := none,
    binary_header_re := none, alternative := false, contents_dict := none,
    compressions := [] }

theorem matches_emp_iff {α : Type} {l : List α} : RMatches Regex.emp l ↔ False := by
  constructor
  · intro h; cases h
  · intro h; exact h.elim

theorem matches_eps_iff {α : Type} {l : List α} : RMatches Regex.eps l ↔ l = [] := by
  constructor
  · intro h; cases h; rfl
  · intro h; subst h; exact RMatches.meps

theorem matches_lit_iff {α : Type} {a : α} {l : List α} :
    RMatches (Regex.lit a) l ↔ l = [a] := by
  constructor
  · intro h; cases h; rfl
  · intro h; subst h; exact RMatches.mlit a

theorem matches_any_iff {α : Type} {ex : List α} {l : List α} :
    RMatches (Regex.anyExcept ex) l ↔ ∃ a, l = [a] ∧ a ∉ ex := by
  constructor
  · intro h; cases h with
    | many a ex ha => exact ⟨a, rfl, ha⟩
  · rintro ⟨a, rfl, ha⟩; exact RMatches.many a ex ha

theorem matches_alt_iff {α : Type} {r s : Regex α} {l : List α} :
    RMatches (Regex.alt r s) l ↔ RMatches r l ∨ RMatches s l := by
  constructor
  · intro h; cases h with
    | maltL h => exact Or.inl h
    | maltR h => exact Or.inr h
  · rintro (h | h)
    · exact RMatches.maltL h
    · exact RMatches.maltR h

theorem matches_cat_iff {α : Type} {r s : Regex α} {l : List α} :
    RMatches (Regex.cat r s) l ↔
      ∃ l1 l2, l = l1 ++ l2 ∧ RMatches r l1 ∧ RMatches s l2 := by
  constructor
  · intro h; cases h with
    | mcat h1 h2 => exact ⟨_, _, rfl, h1, h2⟩
  · rintro ⟨l1, l2, rfl, h1, h2⟩; exact RMatches.mcat h1 h2

theorem rAlt_iff {α : Type} {r s : Regex α} {l : List α} :
    RMatches (rAlt r s) l ↔ RMatches (Regex.alt r s) l := by
  cases r <;> cases s <;>
    simp [rAlt, matches_alt_iff, matches_emp_iff]

theorem cat_emp_left {α : Type} {s : Regex α} {l : List α} :
    RMatches (Regex.cat Regex.emp s) l ↔ False := by
  rw [matches_cat_iff]
  constructor
  · rintro ⟨l1, l2, rfl, h1, h2⟩; exact matches_emp_iff.mp h1
  · exact False.elim

theorem cat_emp_right {α : Type} {r : Regex α} {l : List α} :
    RMatches (Regex.cat r Regex.emp) l ↔ False := by
  rw [matches_cat_iff]
  constructor
  · rintro ⟨l1, l2, rfl, h1, h2⟩; exact matches_emp_iff.mp h2
  · exact False.elim

theorem cat_eps_left {α : Type} {s : Regex α} {l : List α} :
    RMatches (Regex.cat Regex.eps s) l ↔ RMatches s l := by
  rw [matches_cat_iff]
  constructor
  · rintro ⟨l1, l2, rfl, h1, h2⟩
    rw [matches_eps_iff] at h1
    subst h1
    simpa using h2
  · intro h; exact ⟨[], l, rfl, RMatches.meps, h⟩

theorem cat_eps_right {α : Type} {r : Regex α} {l : List α} :
    RMatches (Regex.cat r Regex.eps) l ↔ RMatches r l := by
  rw [matches_cat_iff]
  constructor
  · rintro ⟨l1, l2, rfl, h1, h2⟩
    rw [matches_eps_iff] at h2
    subst h2
    simpa using h1
  · intro h; exact ⟨l, [], by simp, h, RMatches.meps⟩

theorem rCat_iff {α : Type} {r s : Regex α} {l : List α} :
    RMatches (rCat r s) l ↔ RMatches (Regex.cat r s) l := by
  cases r <;> cases s <;>
    simp [rCat, matches_emp_iff, cat_emp_left, cat_emp_right, cat_eps_left,
      cat_eps_right]

theorem matchEpsilon_iff {α : Type} {r : Regex α} :
    matchEpsilon r = true ↔ RMatches r [] := by
  induction r with
  | emp => simp [matchEpsilon, matches_emp_iff]
  | eps => simp [matchEpsilon, matches_eps_iff]
  | lit a => simp [matchEpsilon, matches_lit_iff]
  | anyExcept ex => simp [matchEpsilon, matches_any_iff]
  | alt r s ihr ihs => simp [matchEpsilon, matches_alt_iff, ihr, ihs]
  | cat r s ihr ihs =>
    simp only [matchEpsilon, Bool.and_eq_true, matches_cat_iff, ihr, ihs]
    constructor
    · rintro ⟨h1, h2⟩; exact ⟨[], [], rfl, h1, h2⟩
    · rintro ⟨l1, l2, h, h1, h2⟩
      rcases List.append_eq_nil.mp h.symm with ⟨e1, e2⟩
      subst e1; subst e2; exact ⟨h1, h2⟩
  | star r ih =>
    simp only [matchEpsilon, true_iff]
    exact RMatches.mstarNil

theorem star_split_aux {α : Type} {q : Regex α} {x : List α} (h : RMatches q x) :
    ∀ {r : Regex α}, q = Regex.star r → ∀ {c : α} {l : List α}, x = c :: l →
      ∃ l1 l2, l = l1 ++ l2 ∧ RMatches r (c :: l1) ∧ RMatches (Regex.star r) l2 := by
  induction h with
  | meps => intro r hq; exact (Regex.noConfusion hq)
  | mlit a => intro r hq; exact (Regex.noConfusion hq)
  | many a ex ha => intro r hq; exact (Regex.noConfusion hq)
  | maltL h ih => intro r hq; exact (Regex.noConfusion hq)
  | maltR h ih => intro r hq; exact (Regex.noConfusion hq)
  | mcat h1 h2 ih1 ih2 => intro r hq; exact (Regex.noConfusion hq)
  | mstarNil => intro r hq c l hx; exact (List.noConfusion hx)
  | mstarCat h1 h2 ih1 ih2 =>
    rename_i r0 l1 l2
    intro r hq c l hx
    injection hq with hr
    subst hr
    cases l1 with
    | nil =>
      simp only [List.nil_append] at hx
      exact ih2 rfl hx
    | cons a l1' =>
      injection hx with hx1 hx2
      subst hx1
      exact ⟨l1', l2, hx2.symm, h1, h2⟩

theorem star_split {α : Type} {r : Regex α} {c : α} {l : List α}
    (h : RMatches (Regex.star r) (c :: l)) :
    ∃ l1 l2, l = l1 ++ l2 ∧ RMatches r (c :: l1) ∧ RMatches (Regex.star r) l2 :=
  star_split_aux h rfl rfl

theorem deriv_cat_true {α : Type} [DecidableEq α] {r s : Regex α} {c : α}
    (h : matchEpsilon r = true) :
    deriv (Regex.cat r s) c = rAlt (rCat (deriv r c) s) (deriv s c) := by
  simp [deriv, h]

theorem deriv_cat_false {α : Type} [DecidableEq α] {r s : Regex α} {c : α}
    (h : matchEpsilon r = false) :
    deriv (Regex.cat r s) c = rCat (deriv r c) s := by
  simp [deriv, h]

theorem deriv_iff {α : Type} [DecidableEq α] {r : Regex α} {c : α} {l : List α} :
    RMatches (deriv r c) l ↔ RMatches r (c :: l) := by
  induction r generalizing l with
  | emp => simp [deriv, matches_emp_iff]
  | eps => simp [deriv, matches_emp_iff, matches_eps_iff]
  | lit a =>
    by_cases h : a = c
    · subst h
      rw [show deriv (Regex.lit a) a = Regex.eps by simp [deriv]]
      rw [matches_eps_iff, matches_lit_iff]
      constructor
      · intro hl; subst hl; rfl
      · intro hl; injection hl
    · rw [show deriv (Regex.lit a) c = Regex.emp by simp [deriv, h]]
      rw [matches_emp_iff, matches_lit_iff]
      constructor
      · exact False.elim
      · intro hl; injection hl with h1 h2; exact h h1.symm
  | anyExcept ex =>
    by_cases h : c ∈ ex
    · rw [show deriv (Regex.anyExcept ex) c = Regex.emp by simp [deriv, h]]
      rw [matches_emp_iff, matches_any_iff]
      constructor
      · exact False.elim
      · rintro ⟨a, ha, hna⟩
        injection ha with ha1 ha2
        exact hna (ha1 ▸ h)
    · rw [show deriv (Regex.anyExcept ex) c = Regex.eps by simp [deriv, h]]
      rw [matches_eps_iff, matches_any_iff]
      constructor
      · intro hl; subst hl; exact ⟨c, rfl, h⟩
      · rintro ⟨a, ha, hna⟩
        injection ha
  | alt r s ihr ihs => simp [deriv, rAlt_iff, matches_alt_iff, ihr, ihs]
  | cat r s ihr ihs =>
    cases h : matchEpsilon r with
    | true =>
      rw [deriv_cat_true h, rAlt_iff, matches_alt_iff]
      constructor
      · rintro (hlt | hrt)
        · rcases matches_cat_iff.mp (rCat_iff.mp hlt) with ⟨l1, l2, rfl, h1, h2⟩
          exact matches_cat_iff.mpr ⟨c :: l1, l2, rfl, ihr.mp h1, h2⟩
        · exact matches_cat_iff.mpr ⟨[], c :: l, rfl, matchEpsilon_iff.mp h, ihs.mp hrt⟩
      · intro hm
        rcases matches_cat_iff.mp hm with ⟨l1, l2, heq, h1, h2⟩
        cases l1 with
        | nil =>
          right
          simp only [List.nil_append] at heq
          subst heq
          exact ihs.mpr h2
        | cons a l1' =>
          injection heq with heq1 heq2
          subst heq1
          left
          exact rCat_iff.mpr (matches_cat_iff.mpr ⟨l1', l2, heq2, ihr.mpr h1, h2⟩)
    | false =>
      rw [deriv_cat_false h, rCat_iff]
      constructor
      · intro hd
        rcases matches_cat_iff.mp hd with ⟨l1, l2, rfl, h1, h2⟩
        exact matches_cat_iff.mpr ⟨c :: l1, l2, rfl, ihr.mp h1, h2⟩
      · intro hm
        rcases matches_cat_iff.mp hm with ⟨l1, l2, heq, h1, h2⟩
        cases l1 with
        | nil =>
          have : RMatches r [] := h1
          rw [← matchEpsilon_iff] at this
          rw [h] at this
          exact Bool.noConfusion this
        | cons a l1' =>
          injection heq with heq1 heq2
          subst heq1
          exact matches_cat_iff.mpr ⟨l1', l2, heq2, ihr.mpr h1, h2⟩
  | star r ihr =>
    rw [show deriv (Regex.star r) c = rCat (deriv r c) (Regex.star r) from rfl]
    rw [rCat_iff]
    constructor
    · intro hd
      rcases matches_cat_iff.mp hd with ⟨l1, l2, rfl, h1, h2⟩
      exact RMatches.mstarCat (ihr.mp h1) h2
    · intro hm
      rcases star_split hm with ⟨l1, l2, heq, h1, h2⟩
      exact matches_cat_iff.mpr ⟨l1, l2, heq, ihr.mpr h1, h2⟩

theorem rmatch_iff {α : Type} [DecidableEq α] (r : Regex α) (l : List α) :
    rmatch r l = true ↔ RMatches r l := by
  induction l generalizing r with
  | nil => exact matchEpsilon_iff
  | cons c l ih =>
    have : rmatch r (c :: l) = rmatch (deriv r c) l := rfl
    rw [this]
    exact (ih (deriv r c)).trans deriv_iff

theorem anyStar_matches {α : Type} : ∀ l : List α, RMatches (anyStar α) l := by
  intro l
  induction l with
  | nil => exact RMatches.mstarNil
  | cons c l ih => exact RMatches.mstarCat (RMatches.many c [] (by simp)) ih

theorem reSearch_iff {α : Type} [DecidableEq α] {r : Regex α} {l : List α} :
    reSearch r l = true ↔ ∃ u m v, l = u ++ (m ++ v) ∧ RMatches r m := by
  rw [reSearch, rmatch_iff]
  simp only [matches_cat_iff]
  constructor
  · rintro ⟨u, rest, rfl, _, m, v, rfl, hm, _⟩
    exact ⟨u, m, v, rfl, hm⟩
  · rintro ⟨u, m, v, rfl, hm⟩
    exact ⟨u, m ++ v, rfl, anyStar_matches u, m, v, rfl, hm, anyStar_matches v⟩

theorem litSeqRe_iff {α : Type} {p l : List α} :
    RMatches (litSeqRe p) l ↔ l = p := by
  induction p generalizing l with
  | nil => simp [litSeqRe, matches_eps_iff]
  | cons c cs ih =>
    rw [litSeqRe, matches_cat_iff]
    constructor
    · rintro ⟨l1, l2, rfl, h1, h2⟩
      rw [matches_lit_iff] at h1
      subst h1
      rw [ih] at h2
      subst h2
      rfl
    · intro hl
      subst hl
      exact ⟨[c], cs, rfl, RMatches.mlit c, ih.mpr rfl⟩

theorem compileRe_dotStar : compileRe ".*" = some dotStarRe := by decide

theorem compileRe_textSlash : compileRe "text/.*" = some textSlashRe := by decide

theorem compileRe_lparen : compileRe "(" = none := by decide

/-- The default name/mime pattern `.*` searches successfully in every
string. -/
theorem reSearch_dotStarRe (l : List Char) : reSearch dotStarRe l = true :=
  reSearch_iff.mpr ⟨[], [], l, rfl,
    RMatches.mcat RMatches.mstarNil RMatches.meps⟩

theorem cat_lit_inv {α : Type} {a : α} {r : Regex α} {l : List α}
    (h : RMatches (Regex.cat (Regex.lit a) r) l) :
    ∃ t, l = a :: t ∧ RMatches r t := by
  rcases matches_cat_iff.mp h with ⟨l1, l2, rfl, h1, h2⟩
  rw [matches_lit_iff] at h1
  subst h1
  exact ⟨l2, rfl, h2⟩

theorem textSlashRe_matches {m : List Char} (h : RMatches textSlashRe m) :
    ∃ t, m = 't' :: 'e' :: 'x' :: 't' :: '/' :: t := by
  obtain ⟨t1, e1, h1⟩ := cat_lit_inv h
  obtain ⟨t2, e2, h2⟩ := cat_lit_inv h1
  obtain ⟨t3, e3, h3⟩ := cat_lit_inv h2
  obtain ⟨t4, e4, h4⟩ := cat_lit_inv h3
  obtain ⟨t5, e5, h5⟩ := cat_lit_inv h4
  subst e1
  subst e2
  subst e3
  subst e4
  subst e5
  exact ⟨t5, rfl⟩

/-- The `Parser` default mime pattern `text/.*` searches successfully in
exactly the strings containing the substring `text/`. -/
theorem reSearch_textSlashRe_iff (l : List Char) :
    reSearch textSlashRe l = true ↔
      ∃ u v, l = u ++ ('t' :: 'e' :: 'x' :: 't' :: '/' :: v) := by
  rw [reSearch_iff]
  constructor
  · rintro ⟨u, m, v, rfl, hm⟩
    obtain ⟨t, rfl⟩ := textSlashRe_matches hm
    exact ⟨u, t ++ v, by simp⟩
  · rintro ⟨u, v, rfl⟩
    refine ⟨u, 't' :: 'e' :: 'x' :: 't' :: '/' :: [], v, by simp, ?_⟩
    exact RMatches.mcat (RMatches.mlit _) (RMatches.mcat (RMatches.mlit _)
      (RMatches.mcat (RMatches.mlit _) (RMatches.mcat (RMatches.mlit _)
        (RMatches.mcat (RMatches.mlit _)
          (RMatches.mcat RMatches.mstarNil RMatches.meps)))))

theorem mem_ordInsertBy {α : Type} {le : α → α → Bool} {x a : α} {l : List α} :
    x ∈ ordInsertBy le a l ↔ x = a ∨ x ∈ l := by
  induction l with
  | nil => simp [ordInsertBy]
  | cons b l ih =>
    rw [ordInsertBy]
    by_cases h : le a b = true
    · simp [h]
    · simp only [Bool.not_eq_true] at h
      simp [h, ih]
      tauto

theorem mem_sortByRel {α : Type} {le : α → α → Bool} {x : α} {l : List α} :
    x ∈ sortByRel le l ↔ x ∈ l := by
  induction l with
  | nil => simp [sortByRel]
  | cons a l ih =>
    rw [sortByRel]
    rw [mem_ordInsertBy]
    simp [ih]

theorem perm_ordInsertBy {α : Type} (le : α → α → Bool) (a : α) (l : List α) :
    List.Perm (ordInsertBy le a l) (a :: l) := by
  induction l with
  | nil => simp [ordInsertBy]
  | cons b l ih =>
    rw [ordInsertBy]
    by_cases h : le a b = true
    · simp [h]
    · simp only [Bool.not_eq_true] at h
      rw [h]
      simp only [Bool.false_eq_true, if_false]
      exact (ih.cons b).trans (List.Perm.swap a b l)

theorem perm_sortByRel {α : Type} (le : α → α → Bool) (l : List α) :
    List.Perm (sortByRel le l) l := by
  induction l with
  | nil => simp [sortByRel]
  | cons a l ih =>
    rw [sortByRel]
    exact (perm_ordInsertBy le a (sortByRel le l)).trans (ih.cons a)

theorem pairwise_ordInsertBy {α : Type} {le : α → α → Bool}
    (htot : ∀ a b, le a b = true ∨ le b a = true)
    (htrans : ∀ a b c, le a b = true → le b c = true → le a c = true)
    (a : α) {l : List α} (h : l.Pairwise fun x y => le x y = true) :
    (ordInsertBy le a l).Pairwise fun x y => le x y = true := by
  induction l with
  | nil => simp [ordInsertBy]
  | cons b l ih =>
    rw [List.pairwise_cons] at h
    obtain ⟨hb, hl⟩ := h
    rw [ordInsertBy]
    by_cases hab : le a b = true
    · rw [hab]
      simp only [if_true]
      rw [List.pairwise_cons]
      constructor
      · intro x hx
        rcases List.mem_cons.mp hx with rfl | hx
        · exact hab
        · exact htrans a b x hab (hb x hx)
      · exact List.pairwise_cons.mpr ⟨hb, hl⟩
    · have hba : le b a = true := by
        rcases htot a b with h' | h'
        · exact absurd h' hab
        · exact h'
      simp only [Bool.not_eq_true] at hab
      rw [hab]
      simp only [Bool.false_eq_true, if_false]
      rw [List.pairwise_cons]
      constructor
      · intro x hx
        rcases mem_ordInsertBy.mp hx with rfl | hx
        · exact hba
        · exact hb x hx
      · exact ih hl

theorem pairwise_sortByRel {α : Type} {le : α → α → Bool}
    (htot : ∀ a b, le a b = true ∨ le b a = true)
    (htrans : ∀ a b c, le a b = true → le b c = true → le a c = true)
    (l : List α) :
    (sortByRel le l).Pairwise fun x y => le x y = true := by
  induction l with
  | nil => simp [sortByRel]
  | cons a l ih =>
    rw [sortByRel]
    exact pairwise_ordInsertBy htot htrans a ih

theorem find?_pairwise_min {α : Type} {le : α → α → Bool} {p : α → Bool}
    {l : List α} {r : α}
    (hrefl : ∀ a, le a a = true)
    (hs : l.Pairwise fun x y => le x y = true)
    (hf : l.find? p = some r) :
    ∀ x ∈ l, p x = true → le r x = true := by
  induction l with
  | nil => simp at hf
  | cons a l ih =>
    rw [List.pairwise_cons] at hs
    obtain ⟨ha, hl⟩ := hs
    by_cases hpa : p a = true
    · rw [List.find?_cons_of_pos _ hpa] at hf
      injection hf with hf
      subst hf
      intro x hx hpx
      rcases List.mem_cons.mp hx with rfl | hx
      · exact hrefl _
      · exact ha x hx
    · rw [List.find?_cons_of_neg] at hf
      · intro x hx hpx
        rcases List.mem_cons.mp hx with rfl | hx
        · exact absurd hpx hpa
        · exact ih hl hf x hx hpx
      · simpa using hpa

theorem levelLe_total (a b : ParserRuleSet) :
    levelLe a b = true ∨ levelLe b a = true := by
  rw [levelLe, levelLe]
  rcases le_total a.level b.level with h | h
  · left; exact decide_eq_true h
  · right; exact decide_eq_true h

theorem levelLe_trans (a b c : ParserRuleSet) :
    levelLe a b = true → levelLe b c = true → levelLe a c = true := by
  rw [levelLe, levelLe, levelLe]
  intro h1 h2
  exact decide_eq_true (le_trans (of_decide_eq_true h1) (of_decide_eq_true h2))

theorem levelLe_refl (a : ParserRuleSet) : levelLe a a = true := by
  rw [levelLe]
  exact decide_eq_true (le_refl a.level)

theorem resolveFile_some {rules : List ParserRuleSet} {f : RawFile}
    {r : ParserRuleSet} (h : resolveFile rules f = some r) :
    r ∈ rules ∧ r.alternative = false ∧ ruleMatches r f = true ∧
      ∀ s ∈ rules, s.alternative = false → ruleMatches s f = true →
        r.level ≤ s.level := by
  rw [resolveFile] at h
  have hmem : r ∈ sortByRel levelLe (rules.filter fun r => !r.alternative) :=
    List.mem_of_find?_eq_some h
  have hmem' := List.mem_filter.mp (mem_sortByRel.mp hmem)
  have hmatch : ruleMatches r f = true := by
    have := List.find?_some h
    simpa using this
  refine ⟨hmem'.1, by simpa using hmem'.2, hmatch, ?_⟩
  intro s hs hsalt hsm
  have hsmem : s ∈ sortByRel levelLe (rules.filter fun r => !r.alternative) := by
    rw [mem_sortByRel]
    exact List.mem_filter.mpr ⟨hs, by simp [hsalt]⟩
  have := find?_pairwise_min levelLe_refl
    (pairwise_sortByRel levelLe_total levelLe_trans _) h s hsmem hsm
  exact of_decide_eq_true this

theorem resolveFile_none {rules : List ParserRuleSet} {f : RawFile} :
    resolveFile rules f = none ↔
      ∀ s ∈ rules, s.alternative = false → ruleMatches s f = false := by
  rw [resolveFile, List.find?_eq_none]
  constructor
  · intro h s hs hsalt
    have hsmem : s ∈ sortByRel levelLe (rules.filter fun r => !r.alternative) := by
      rw [mem_sortByRel]
      exact List.mem_filter.mpr ⟨hs, by simp [hsalt]⟩
    have := h s hsmem
    simpa using this
  · intro h s hsmem
    have hmem' := List.mem_filter.mp (mem_sortByRel.mp hsmem)
    have halt : s.alternative = false := by simpa using hmem'.2
    simp [h s hmem'.1 halt]

theorem someNonAltMatch_false {rules : List ParserRuleSet}
    {files : List RawFile} (h : someNonAltMatch rules files = false) :
    ∀ g ∈ files, resolveFile rules g = none := by
  intro g hg
  rw [someNonAltMatch] at h
  have h2 := List.any_eq_false.mp h g hg
  cases hres : resolveFile rules g with
  | none => rfl
  | some r =>
    rw [hres] at h2
    simp at h2

theorem someNonAltMatch_perm {rules : List ParserRuleSet}
    {files1 files2 : List RawFile} (h : List.Perm files1 files2) :
    someNonAltMatch rules files1 = someNonAltMatch rules files2 := by
  rw [someNonAltMatch, someNonAltMatch]
  cases hb : files2.any fun g => (resolveFile rules g).isSome with
  | true =>
    rcases List.any_eq_true.mp hb with ⟨g, hg, hgs⟩
    exact List.any_eq_true.mpr ⟨g, h.mem_iff.mpr hg, hgs⟩
  | false =>
    rw [List.any_eq_false]
    intro g hg
    have := List.any_eq_false.mp hb g (h.mem_iff.mp hg)
    exact this

theorem pydanticDict_mem_keys {m : ParserEntryPointModel} {keys : List String}
    {k : String} {v : FieldValue} (h : (k, v) ∈ pydanticDict m keys) :
    k ∈ keys := by
  rw [pydanticDict] at h
  rcases List.mem_filterMap.mp h with ⟨a, ha, heq⟩
  revert heq
  cases hga : getField m a with
  | vnone => intro heq; exact absurd heq (by simp)
  | vstr s => intro heq; injection heq with h1; injection h1 with h1 h2; exact h1 ▸ ha
  | vint n => intro heq; injection heq with h1; injection h1 with h1 h2; exact h1 ▸ ha
  | vbool b => intro heq; injection heq with h1; injection h1 with h1 h2; exact h1 ▸ ha
  | vlist l => intro heq; injection heq with h1; injection h1 with h1 h2; exact h1 ▸ ha
  | vbytes b => intro heq; injection heq with h1; injection h1 with h1 h2; exact h1 ▸ ha
  | vdict d => intro heq; injection heq with h1; injection h1 with h1 h2; exact h1 ▸ ha

theorem regLookup_regInsert (reg : PluginRegistry) (k : String)
    (p : ParserEntryPointModel) : regLookup (regInsert reg k p) k = some p := by
  induction reg with
  | nil => simp [regInsert, regLookup]
  | cons kv t ih =>
    obtain ⟨k', v'⟩ := kv
    rw [regInsert]
    by_cases h : k = k'
    · rw [if_pos h, regLookup, if_pos rfl]
    · rw [if_neg h, regLookup, if_neg h]
      exact ih

theorem perm_sortDescBy {V : Type} [LinearOrder V] (l : List (Package V)) :
    List.Perm (sortDescBy l) l :=
  perm_sortByRel _ l

theorem mem_deleteGroup {V : Type} [LinearOrder V] {isPre : V → Bool}
    {group : List (Package V)} {p : Package V}
    (hp : p ∈ deleteGroup isPre group) :
    isPre p.version = true ∧ p ∈ group ∧
      2 ≤ (group.filter fun q => !isPre q.version).length ∧
      ∃ s, secondLatestNonPre isPre group = some s ∧ p.version < s.version := by
  rw [deleteGroup] at hp
  by_cases hlen : ((sortDescBy group).filter fun q => !isPre q.version).length < 2
  · rw [if_pos hlen] at hp
    simp at hp
  · rw [if_neg hlen] at hp
    cases hsec : ((sortDescBy group).filter fun q => !isPre q.version)[1]? with
    | none =>
      rw [hsec] at hp
      simp at hp
    | some second =>
      rw [hsec] at hp
      have hmem := List.mem_filter.mp hp
      have hgroup : p ∈ group := (perm_sortDescBy group).mem_iff.mp hmem.1
      have hcond := hmem.2
      rw [Bool.and_eq_true] at hcond
      have hlt : p.version < second.version := of_decide_eq_true hcond.1
      have hpre : isPre p.version = true := hcond.2
      refine ⟨hpre, hgroup, ?_, second, ?_, hlt⟩
      · have hperm : List.Perm
            ((sortDescBy group).filter fun q => !isPre q.version)
            (group.filter fun q => !isPre q.version) :=
          (perm_sortDescBy group).filter _
        rw [← hperm.length_eq]
        omega
      · rw [secondLatestNonPre]
        exact hsec

/-- C1 (amended): an alternative rule-set's match for a file is valid only
if no **non-alternative** rule-set matches any file in the same directory
(matches by other alternative rule-sets do not void it); in particular,
given files A and B, a non-alternative rule-set R1 matching only A and an
alternative rule-set R2 matching B, resolution assigns A to R1 and leaves
B unmatched. -/
theorem claim1_alternative_exclusivity :
    (∀ (rules : List ParserRuleSet) (files : List RawFile) (f : RawFile)
        (i : String),
      resolveFile rules f = none → assignFile rules files f = some i →
        ∀ g ∈ files, ∀ s ∈ rules, s.alternative = false →
          ruleMatches s g = false) ∧
    (∀ (A B : RawFile) (R1 R2 : ParserRuleSet),
      R1.alternative = false → R2.alternative = true →
      ruleMatches R1 A = true → ruleMatches R1 B = false →
      ruleMatches R2 B = true →
        assignFile [R1, R2] [A, B] A = some R1.id ∧
        assignFile [R1, R2] [A, B] B = none) := by
  constructor
  · intro rules files f i hres hass g hg s hs hsalt
    simp only [assignFile, hres] at hass
    cases hsome : someNonAltMatch rules files with
    | false =>
      have hres2 := someNonAltMatch_false hsome g hg
      exact (resolveFile_none.mp hres2) s hs hsalt
    | true =>
      rw [hsome] at hass
      simp at hass
  · intro A B R1 R2 hR1 hR2 hm1A hm1B hm2B
    have hrA : resolveFile [R1, R2] A = some R1 := by
      simp [resolveFile, hR1, hR2, sortByRel, ordInsertBy, List.find?, hm1A]
    have hrB : resolveFile [R1, R2] B = none := by
      simp [resolveFile, hR1, hR2, sortByRel, ordInsertBy, List.find?, hm1B]
    have hsome : someNonAltMatch [R1, R2] [A, B] = true := by
      simp [someNonAltMatch, hrA]
    constructor
    · simp [assignFile, hrA]
    · simp [assignFile, hrB, hsome]

/-- C1 counterexample to the claim as stated: with two alternative
rule-sets, each matching a different file of the directory, both matches
are assigned — an alternative rule-set's match is valid even though
another rule-set (of any level) matches another file in the same
directory. -/
theorem claim1_counterexample :
    rsAltJson.alternative = true ∧
    assignFile [rsAltJson, rsAltProto] [fileJson, fileProto] fileJson =
      some rsAltJson.id ∧
    rsAltProto.alternative = true ∧
    rsAltProto.id ≠ rsAltJson.id ∧
    fileProto ∈ [fileJson, fileProto] ∧
    ruleMatches rsAltProto fileProto = true := by decide

/-- C1 witness: the concrete A/B scenario, via the claim theorem. -/
theorem claim1_witness :
    assignFile [rsCalc, rsAltJson] [fileCalc, fileJson] fileCalc =
      some rsCalc.id ∧
    assignFile [rsCalc, rsAltJson] [fileCalc, fileJson] fileJson = none :=
  claim1_alternative_exclusivity.2 fileCalc fileJson rsCalc rsAltJson
    rfl rfl (by decide) (by decide) (by decide)

/-- C2: non-alternative resolution picks a matching rule-set of minimal
level; with levels 0 and 5 the level-0 rule-set wins regardless of
insertion order; at equal levels the rule-set inserted earlier wins. -/
theorem claim2_priority_order :
    (∀ (rules : List ParserRuleSet) (f : RawFile) (r : ParserRuleSet),
      resolveFile rules f = some r →
        r ∈ rules ∧ r.alternative = false ∧ ruleMatches r f = true ∧
          ∀ s ∈ rules, s.alternative = false → ruleMatches s f = true →
            r.level ≤ s.level) ∧
    (∀ (X Y : ParserRuleSet) (f : RawFile),
      X.alternative = false → Y.alternative = false →
      X.level = 0 → Y.level = 5 →
      ruleMatches X f = true → ruleMatches Y f = true →
        resolveFile [Y, X] f = some X ∧ resolveFile [X, Y] f = some X) ∧
    (∀ (X Y : ParserRuleSet) (f : RawFile),
      X.alternative = false → Y.alternative = false →
      X.level = Y.level →
      ruleMatches X f = true → ruleMatches Y f = true →
        resolveFile [X, Y] f = some X) := by
  refine ⟨fun rules f r h => resolveFile_some h, ?_, ?_⟩
  · intro X Y f hXalt hYalt hX hY hmX hmY
    have hle : levelLe Y X = false := by
      rw [levelLe, hX, hY]
      decide
    have hle2 : levelLe X Y = true := by
      rw [levelLe, hX, hY]
      decide
    constructor
    · simp [resolveFile, hXalt, hYalt, sortByRel, ordInsertBy, hle,
        List.find?, hmX]
    · simp [resolveFile, hXalt, hYalt, sortByRel, ordInsertBy, hle2,
        List.find?, hmX]
  · intro X Y f hXalt hYalt hXY hmX hmY
    have hle : levelLe X Y = true := by
      rw [levelLe, hXY]
      exact decide_eq_true (le_refl Y.level)
    simp [resolveFile, hXalt, hYalt, sortByRel, ordInsertBy, hle,
      List.find?, hmX]

/-- C2 witness: levels 0 and 5 on a concrete file, via the claim theorem. -/
theorem claim2_witness :
    resolveFile [rsLevel5, rsLevel0] fileCalc = some rsLevel0 ∧
    resolveFile [rsLevel0, rsLevel5] fileCalc = some rsLevel0 :=
  claim2_priority_order.2.1 rsLevel0 rsLevel5 fileCalc rfl rfl rfl rfl
    (by decide) (by decide)

/-- C3 (amended): a `ParserEntryPoint` rule-set with no clauses set is a
catch-all — it matches every file; a `Parser` plugin rule-set with no
clauses set is **not** a catch-all: because its default mime pattern is
`text/.*`, it matches exactly the files whose detected MIME type contains
`text/`. -/
theorem claim3_catch_all :
    compileParserEntryPoint pepDefault = some pepDefaultRS ∧
    (∀ f : RawFile, ruleMatches pepDefaultRS f = true) ∧
    compileParserPlugin parserPluginDefault = some parserDefaultRS ∧
    (∀ f : RawFile, ruleMatches parserDefaultRS f = true ↔
      ∃ u v, f.mime.data = u ++ ('t' :: 'e' :: 'x' :: 't' :: '/' :: v)) := by
  refine ⟨by decide, ?_, by decide, ?_⟩
  · intro f
    simp [ruleMatches, pepDefaultRS, reSearch_dotStarRe]
  · intro f
    have h : ruleMatches parserDefaultRS f = reSearch textSlashRe f.mime.data := by
      simp [ruleMatches, parserDefaultRS, reSearch_dotStarRe]
    rw [h]
    exact reSearch_textSlashRe_iff f.mime.data

/-- C3 counterexample to the claim as stated: the default-constructed
`Parser` rule-set (no clauses set) does not match a JSON file — its
default mime pattern `text/.*` fails on `application/json`. -/
theorem claim3_counterexample :
    compileParserPlugin parserPluginDefault = some parserDefaultRS ∧
    ruleMatches parserDefaultRS fileJson = false := by decide

/-- C3 witness: concrete files matched by both default rule-sets, via the
claim theorem. -/
theorem claim3_witness :
    ruleMatches pepDefaultRS fileJson = true ∧
    ruleMatches parserDefaultRS fileCalc = true :=
  ⟨claim3_catch_all.2.1 fileJson,
    (claim3_catch_all.2.2.2 fileCalc).mpr
      ⟨[], 'p' :: 'l' :: 'a' :: 'i' :: 'n' :: [], by decide⟩⟩

/-- C4 (amended): the `ParserEntryPoint` default mime pattern `.*` matches
every MIME-type string; the `Parser` default mime pattern is `text/.*`,
which matches exactly the MIME-type strings containing `text/` — not every
string. -/
theorem claim4_default_mime :
    compileRe ".*" = some dotStarRe ∧
    (∀ mime : List Char, reSearch dotStarRe mime = true) ∧
    compileRe "text/.*" = some textSlashRe ∧
    (∀ mime : List Char, reSearch textSlashRe mime = true ↔
      ∃ u v, mime = u ++ ('t' :: 'e' :: 'x' :: 't' :: '/' :: v)) :=
  ⟨compileRe_dotStar, reSearch_dotStarRe, compileRe_textSlash,
    reSearch_textSlashRe_iff⟩

/-- C4 counterexample to the claim as stated: the `Parser` default mime
pattern does not match the MIME type `application/json`. -/
theorem claim4_counterexample :
    compileRe "text/.*" = some textSlashRe ∧
    reSearch textSlashRe ("application/json".data) = false := by decide

/-- C4 witness: both default patterns evaluated on concrete MIME types,
via the claim theorem. -/
theorem claim4_witness :
    reSearch dotStarRe ("application/json".data) = true ∧
    reSearch textSlashRe ("text/plain".data) = true :=
  ⟨claim4_default_mime.2.1 _,
    (claim4_default_mime.2.2.2 _).mpr
      ⟨[], 'p' :: 'l' :: 'a' :: 'i' :: 'n' :: [], by decide⟩⟩

/-- C5 (amended): the registry-add operation performs no validation at all:
every plugin — including one whose content regex does not compile — is
stored in the registry unconditionally.  Nothing is rejected at add time. -/
theorem claim5_add_no_validation :
    (∀ (reg : PluginRegistry) (key : String) (p : ParserEntryPointModel),
      regLookup (add_plugin reg key p) key = some p) ∧
    compileParserEntryPoint badPlugin = none :=
  ⟨fun reg key p => regLookup_regInsert reg key p, by decide⟩

/-- C5 counterexample to the claim as stated: a rule-set whose content
regex `"("` is invalid (it does not compile) is accepted by `add_plugin`
and ends up in the registry — it is not rejected at add time. -/
theorem claim5_counterexample :
    compileParserEntryPoint badPlugin = none ∧
    regLookup (add_plugin [] "bad_parser" badPlugin) "bad_parser" =
      some badPlugin := by decide

/-- C6 (amended): removing a rule-set identifier that is not present
raises an uncaught `KeyError` (the `del` on the options dict is
unguarded), leaving the registry contents unchanged; removing a present
identifier erases it without error. -/
theorem claim6_remove_missing :
    (∀ (reg : PluginRegistry) (key : String), regLookup reg key = none →
      remove_plugin reg key = (reg, some "KeyError")) ∧
    (∀ (reg : PluginRegistry) (key : String) (v : ParserEntryPointModel),
      regLookup reg key = some v →
      remove_plugin reg key = (regErase reg key, none)) := by
  constructor
  · intro reg key h
    simp [remove_plugin, h]
  · intro reg key v h
    simp [remove_plugin, h]

/-- C6 counterexample to the claim as stated: removing a missing key from
a non-empty registry raises `KeyError` (a crash), with the registry
contents unchanged. -/
theorem claim6_counterexample :
    remove_plugin [("np", pepDefault)] "missing" =
      ([("np", pepDefault)], some "KeyError") := by decide

/-- C6 witness: the empty-registry case, via the claim theorem. -/
theorem claim6_witness :
    remove_plugin [] "missing" = (([] : PluginRegistry), some "KeyError") :=
  claim6_remove_missing.1 [] "missing" rfl

/-- C7: resolution is a pure function of the registry and the directory
contents — the assignment of a file does not depend on the order in which
the directory's files are listed. -/
theorem claim7_determinism :
    ∀ (rules : List ParserRuleSet) (files1 files2 : List RawFile)
      (f : RawFile), List.Perm files1 files2 →
      assignFile rules files1 f = assignFile rules files2 f := by
  intro rules files1 files2 f hperm
  rw [assignFile, assignFile, someNonAltMatch_perm hperm]

/-- C7 witness: a concrete two-file directory listed in both orders, via
the claim theorem. -/
theorem claim7_witness :
    assignFile [rsCalc, rsAltJson] [fileCalc, fileJson] fileJson =
      assignFile [rsCalc, rsAltJson] [fileJson, fileCalc] fileJson :=
  claim7_determinism [rsCalc, rsAltJson] [fileCalc, fileJson]
    [fileJson, fileCalc] fileJson (by decide)

/-- C8: `dict_safe` never emits the two binary fields, and its output does
not depend on them: two models differing only in
`mainfile_binary_header`/`mainfile_binary_header_re` serialize
identically. -/
theorem claim8_dict_safe :
    (∀ (m : ParserEntryPointModel) (k : String) (v : FieldValue),
      (k, v) ∈ dict_safe m →
        k ≠ "mainfile_binary_header" ∧ k ≠ "mainfile_binary_header_re") ∧
    (∀ (m : ParserEntryPointModel) (bh bhre : Option (List Nat)),
      dict_safe { m with mainfile_binary_header := bh,
                         mainfile_binary_header_re := bhre } = dict_safe m) := by
  constructor
  · intro m k v h
    have hk := pydanticDict_mem_keys h
    have hmem := List.mem_filter.mp hk
    have hpred := hmem.2
    constructor
    · intro hkeq
      subst hkeq
      simp at hpred
    · intro hkeq
      subst hkeq
      simp at hpred
  · intro m bh bhre
    rfl

/-- C8 witness: a concrete entry of a concrete safe dict, via the claim
theorem. -/
theorem claim8_witness :
    ("entry_point_type" : String) ≠ "mainfile_binary_header" ∧
    ("entry_point_type" : String) ≠ "mainfile_binary_header_re" :=
  claim8_dict_safe.1 pepDefault "entry_point_type" (FieldValue.vstr "parser")
    (by decide)

/-- C9: the example-upload validator errors exactly when both `path` and
`url` are given or when none of `path`, `url`, `local_path` is given;
hence every successfully validated instance has at least one of the three
set and not both `path` and `url`. -/
theorem claim9_example_upload_validate :
    (∀ v : ExampleUploadValues,
      (∃ e, exampleUploadValidate v = Except.error e) ↔
        ((truthy v.path = true ∧ truthy v.url = true) ∨
          (truthy v.path = false ∧ truthy v.url = false ∧
            truthy v.local_path = false))) ∧
    (∀ v w : ExampleUploadValues, exampleUploadValidate v = Except.ok w →
      w = v ∧ ¬(truthy v.path = true ∧ truthy v.url = true) ∧
        (truthy v.path = true ∨ truthy v.url = true ∨
          truthy v.local_path = true)) := by
  constructor
  · intro v
    rw [exampleUploadValidate]
    cases hp : truthy v.path <;> cases hu : truthy v.url <;>
      cases hl : truthy v.local_path <;> simp [hp, hu, hl]
  · intro v w h
    rw [exampleUploadValidate] at h
    cases hp : truthy v.path <;> cases hu : truthy v.url <;>
      cases hl : truthy v.local_path <;> rw [hp, hu, hl] at h <;>
      simp_all

/-- C9 witness: giving both `path` and `url` is rejected, via the claim
theorem. -/
theorem claim9_witness :
    ∃ e, exampleUploadValidate { path := some "p", url := some "u" } =
      Except.error e :=
  (claim9_example_upload_validate.1
    { path := some "p", url := some "u" }).mpr (Or.inl (by decide))

/-- C10: every deleted package is a prerelease, comes from the input, its
name group contains at least two non-prerelease versions, and its version
is strictly below the group's second-latest non-prerelease version; in
particular a non-prerelease version is never selected for deletion. -/
theorem claim10_find_packages_to_delete :
    ∀ {V : Type} [LinearOrder V] (isPre : V → Bool)
      (packages : List (Package V)) (p : Package V),
      p ∈ find_packages_to_delete isPre packages →
        isPre p.version = true ∧ p ∈ packages ∧
          2 ≤ ((packages.filter fun q => q.name == p.name).filter
            fun q => !isPre q.version).length ∧
          ∃ s, secondLatestNonPre isPre
              (packages.filter fun q => q.name == p.name) = some s ∧
            p.version < s.version := by
  intro V _ isPre packages p hp
  rw [find_packages_to_delete] at hp
  rcases List.mem_flatMap.mp hp with ⟨n, hn, hbody⟩
  have h := mem_deleteGroup hbody
  have hname : p.name = n := by
    have hb := (List.mem_filter.mp h.2.1).2
    exact beq_iff_eq.mp hb
  subst hname
  have hpkgs : p ∈ packages := (List.mem_filter.mp h.2.1).1
  exact ⟨h.1, hpkgs, h.2.2.1, h.2.2.2⟩

/-- C10 witness: on the concrete table, version 3 is deleted: it is a
prerelease below the second-latest release 4; via the claim theorem. -/
theorem claim10_witness :
    oddPre 3 = true ∧
    ({ name := "a", version := 3 } : Package Nat) ∈ samplePackages ∧
    2 ≤ ((samplePackages.filter fun q => q.name == "a").filter
      fun q => !oddPre q.version).length ∧
    ∃ s, secondLatestNonPre oddPre
        (samplePackages.filter fun q => q.name == "a") = some s ∧
      (3 : Nat) < s.version :=
  claim10_find_packages_to_delete oddPre samplePackages
    { name := "a", version := 3 } (by decide)

end NomadSpec
